import Mathlib

/-!
# Verification of the `warcat` WARC document model (`warcat/model.py`)

Shallow embedding of the WARC container model: the `Fields` name/value
pseudo-map, `Header`, content blocks (`BinaryBlock`, `BlockWithPayload`),
`Record.load`, and the `WARC.read_record` framing protocol.

Modelling conventions:
* File bytes are modelled as `List Char`; `bytes.decode()` is the identity
  (one character per byte, adequate for the byte-level framing the model
  manipulates).
* Python exceptions are modelled with `Except PyErr`.
* Python `str.lower` is modelled by ASCII `Char.toLower`, which is how
  field names are compared.
* Field values in a parsed header are strings, but the `content_length`
  setter overwrites them with Python ints, so header field values are a
  sum type `PyVal`.
-/

/-- Python exception classes raised by the model code. -/
inductive PyErr where
  | ioError
  | valueError
  | typeError
  | keyError
deriving DecidableEq, Repr

instance {ε α : Type} [DecidableEq ε] [DecidableEq α] : DecidableEq (Except ε α)
  | .error a, .error b =>
    if h : a = b then isTrue (by rw [h])
    else isFalse (by intro hc; cases hc; exact h rfl)
  | .error _, .ok _ => isFalse (by intro hc; cases hc)
  | .ok _, .error _ => isFalse (by intro hc; cases hc)
  | .ok a, .ok b =>
    if h : a = b then isTrue (by rw [h])
    else isFalse (by intro hc; cases hc; exact h rfl)

/-- `NEWLINE = '\r\n'` from the source (as characters). -/
def NEWLINE : List Char := ['\r', '\n']

/-- `FIELD_DELIM_BYTES = NEWLINE_BYTES * 2` from the source. -/
def FIELD_DELIM_BYTES : List Char := NEWLINE ++ NEWLINE

/-- Python `str.lower()` on a character list (ASCII case folding). -/
def lowerStr (s : List Char) : List Char := s.map Char.toLower

/-- Characters stripped by Python `str.lstrip()` / `str.strip()`
(whitespace per `str.isspace`, restricted to the Latin-1 range). -/
def isPySpace (c : Char) : Bool :=
  c.toNat ∈ [32, 9, 10, 13, 11, 12, 28, 29, 30, 31, 0x85, 0xa0]

/-- Python `str.lstrip()`. -/
def lstrip : List Char → List Char
  | [] => []
  | c :: rest => if isPySpace c then lstrip rest else c :: rest

/-- Prepend a character to the first piece of a split result. -/
def consFirst (c : Char) : List (List Char) → List (List Char)
  | [] => [[c]]
  | l :: ls => (c :: l) :: ls

/-- Python `re.split('\r\n', s)`: split a string on every occurrence of the
two-character line terminator, scanning left to right. -/
def splitCRLF : List Char → List (List Char)
  | [] => [[]]
  | '\r' :: '\n' :: rest => [] :: splitCRLF rest
  | c :: rest => consFirst c (splitCRLF rest)

/-- Python `s.split('\r\n', 1)` when it succeeds: the part before the first
line terminator and the part after it; `none` when the terminator is absent
(in which case a two-variable unpacking raises `ValueError`). -/
def splitOnceCRLF : List Char → Option (List Char × List Char)
  | [] => none
  | '\r' :: '\n' :: rest => some ([], rest)
  | c :: rest => (splitOnceCRLF rest).map fun p => (c :: p.1, p.2)

/-- Python `line.split(':', 1)` when a colon exists: the parts before and
after the first colon; `none` when there is no colon (two-variable
unpacking then raises `ValueError`). -/
def splitFirstColon : List Char → Option (List Char × List Char)
  | [] => none
  | c :: rest =>
    if c = ':' then some ([], rest)
    else (splitFirstColon rest).map fun p => (c :: p.1, p.2)

/-- Index of the first occurrence of `pat` as a contiguous sublist of the
haystack, scanning left to right (`bytes.find`-style search). -/
def findSub (pat : List Char) : List Char → Option Nat
  | [] => if pat = [] then some 0 else none
  | hay@(_ :: rest) =>
    if pat.isPrefixOf hay then some 0
    else (findSub pat rest).map (· + 1)

/-- Python `int(s)` on a string: strip whitespace, allow one sign,
then a nonempty run of decimal digits; anything else raises `ValueError`. -/
def digitsVal (s : List Char) : Option Nat :=
  if s ≠ [] ∧ s.all Char.isDigit then
    some (s.foldl (fun a c => a * 10 + (c.toNat - 48)) 0)
  else none

/-- Python `str.strip()` (both sides). -/
def stripPy (s : List Char) : List Char :=
  ((s.dropWhile isPySpace).reverse.dropWhile isPySpace).reverse

/-- Python `int(s)` for `s : str`. -/
def parsePyInt (s : List Char) : Except PyErr Int :=
  match stripPy s with
  | '+' :: rest =>
    match digitsVal rest with
    | some n => .ok (n : Int)
    | none => .error .valueError
  | '-' :: rest =>
    match digitsVal rest with
    | some n => .ok (-(n : Int))
    | none => .error .valueError
  | t =>
    match digitsVal t with
    | some n => .ok (n : Int)
    | none => .error .valueError

/-- A dynamically-typed Python value stored in a field list: header values
are parsed as strings and the `content_length` setter stores an int. -/
inductive PyVal where
  | str (s : List Char)
  | int (n : Int)
deriving DecidableEq, Repr

/-- Python `int(v)` applied to a field value: `int` on a string parses it,
`int` on an int is the identity. -/
def pyInt : PyVal → Except PyErr Int
  | .str s => parsePyInt s
  | .int n => .ok n

/-- Python `int(v)` where `v` may be `None` (absent field): `int(None)`
raises `TypeError`. -/
def pyIntOfOpt : Option PyVal → Except PyErr Int
  | none => .error .typeError
  | some v => pyInt v

namespace Fields

variable {V : Type}

/-- `Fields.__getitem__`: scan the list for the first name that matches
case-insensitively and return its value; the loop falls through and
returns `None` (here `none`) when there is no match — it never raises. -/
def getitem (fs : List (List Char × V)) (name : List Char) : Option V :=
  match fs with
  | [] => none
  | (k, v) :: rest =>
    if lowerStr k = lowerStr name then some v else getitem rest name

/-- The exception-visible type of `Fields.__getitem__`: the method body is
a plain `for` loop ending by falling off the end, so it always returns
normally (with `None` for an absent name) and never raises `KeyError`. -/
def getitemExc (fs : List (List Char × V)) (name : List Char) :
    Except PyErr (Option V) :=
  .ok (getitem fs name)

/-- `Fields.get(name, default)`: `try: return self[name] except KeyError:
return default`. -/
def get (fs : List (List Char × V)) (name : List Char) (default : Option V) :
    Except PyErr (Option V) :=
  match getitemExc fs name with
  | .error .keyError => .ok default
  | r => r

/-- `Fields.index`: index of the first case-insensitive occurrence of the
name; raises `KeyError` when absent. -/
def index (fs : List (List Char × V)) (name : List Char) : Except PyErr Nat :=
  match fs with
  | [] => .error .keyError
  | (k, _) :: rest =>
    if lowerStr k = lowerStr name then .ok 0
    else (index rest name).map (· + 1)

/-- `Fields.__delitem__`: remove every pair whose name matches
case-insensitively. -/
def delitem (fs : List (List Char × V)) (name : List Char) :
    List (List Char × V) :=
  fs.filter fun p => ¬(lowerStr p.1 = lowerStr name)

/-- `Fields.__setitem__`: if the name is present, delete all occurrences
and insert the new pair at the first occurrence's index; otherwise
append. -/
def setitem (fs : List (List Char × V)) (name : List Char) (value : V) :
    List (List Char × V) :=
  match index fs name with
  | .error _ => fs ++ [(name, value)]
  | .ok i => (delitem fs name).insertIdx i (name, value)

/-- `Fields.add`: append a name-value field to the list. -/
def add (fs : List (List Char × V)) (name : List Char) (value : V) :
    List (List Char × V) :=
  fs ++ [(name, value)]

/-- `Fields.get_list`: `list([x for x in self._list if x[0].lower() ==
name.lower()])` — note this keeps the pairs `x`, not the values `x[1]`. -/
def get_list (fs : List (List Char × V)) (name : List Char) :
    List (List Char × V) :=
  fs.filter fun p => lowerStr p.1 = lowerStr name

/-- `Fields.count`. -/
def count (fs : List (List Char × V)) (name : List Char) : Nat :=
  (get_list fs name).length

/-- `Fields.join_multilines`: pop continuation lines that start with a
space or tab, appending each line minus its first character to the value;
a blank line is consumed and stops the scan; a non-continuation line is
pushed back and stops the scan. Returns the folded value and the
remaining line queue. -/
def join_multilines (value : List Char) :
    List (List Char) → List Char × List (List Char)
  | [] => (value, [])
  | line :: rest =>
    match line with
    | [] => (value, rest)
    | c :: tailChars =>
      if c = ' ' ∨ c = '\t' then join_multilines (value ++ tailChars) rest
      else (value, line :: rest)

/-- The loop body of `Fields.parse` over the deque of lines.  The fuel
argument only bounds the recursion; one line is consumed per step and
`join_multilines` never grows the queue, so `lines.length` fuel is always
enough (see `parseLines_fuel_irrelevant`). -/
def parseLines : Nat → List (List Char) → Except PyErr (List (List Char × List Char))
  | 0, _ => .ok []
  | _ + 1, [] => .ok []
  | fuel + 1, line :: rest =>
    if line = [] then parseLines fuel rest
    else
      match splitFirstColon line with
      | none => .error .valueError
      | some (name, v0) =>
        let folded := join_multilines (lstrip v0) rest
        (parseLines fuel folded.2).map fun fs => (name, folded.1) :: fs

/-- `Fields.parse`: split the input on the line terminator and repeatedly
pop a line; blank lines are skipped, otherwise split at the first colon,
left-strip the value, fold continuation lines, and append the pair. -/
def parse (s : List Char) : Except PyErr (List (List Char × List Char)) :=
  let lines := splitCRLF s
  parseLines lines.length lines

/-- `Fields.iter_str`: for each pair yield `'{}: {}'.format(name, value)`
and then the line terminator. -/
def iter_str (fs : List (List Char × List Char)) : List (List Char) :=
  (fs.map fun p => [p.1 ++ ':' :: ' ' :: p.2, NEWLINE]).flatten

/-- `str(fields)`: the concatenation of `iter_str`. -/
def str (fs : List (List Char × List Char)) : List Char :=
  (iter_str fs).flatten

end Fields

/-- `HTTPHeaders.parse` pops the first line as the HTTP status before
delegating to `Fields.parse`; the tag records which variant a
`BlockWithPayload` used. -/
inductive FieldsVariant where
  | plain
  | http
deriving DecidableEq, Repr

/-- The embedded field list of a `BlockWithPayload`: a plain `Fields` or
an `HTTPHeaders` (a status line plus fields). -/
inductive BlockFields where
  | plain (fields : List (List Char × List Char))
  | http (status : List Char) (fields : List (List Char × List Char))
deriving DecidableEq, Repr

/-- Serialized text of the embedded field list (`bytes(self.fields)`):
`HTTPHeaders.iter_str` first yields the status line and terminator. -/
def BlockFields.str : BlockFields → List Char
  | .plain fs => Fields.str fs
  | .http status fs => status ++ NEWLINE ++ Fields.str fs

/-- Parse the embedded field list: `field_cls.parse(...)` for
`field_cls ∈ {Fields, HTTPHeaders}`.  `HTTPHeaders.parse` raises
`ValueError` when there is no line terminator to split the status from. -/
def parseBlockFields : FieldsVariant → List Char → Except PyErr BlockFields
  | .plain, s => (Fields.parse s).map .plain
  | .http, s =>
    match splitOnceCRLF s with
    | none => .error .valueError
    | some (status, rest) => (Fields.parse rest).map (.http status)

/-- A WARC record header: version token plus fields (`Header`). -/
structure Header where
  version : List Char
  fields : List (List Char × PyVal)
deriving DecidableEq, Repr

/-- `Header.parse`: decode, split at the first line terminator into the
version line and the field text (raising `ValueError` when there is no
terminator), require the version line to start with `"WARC"` (else
`IOError`), take the version as `version_line[5:]`, and parse the rest
as fields. -/
def Header.parse (b : List Char) : Except PyErr Header :=
  match splitOnceCRLF b with
  | none => .error .valueError
  | some (version_line, field_str) =>
    if ("WARC".toList).isPrefixOf version_line then
      (Fields.parse field_str).map fun fs =>
        { version := version_line.drop 5
          fields := fs.map fun p => (p.1, PyVal.str p.2) }
    else .error .ioError

/-- A logical file object: the underlying byte sequence plus the read
cursor (`file_obj.tell()`). -/
structure FileObj where
  data : List Char
  pos : Nat
deriving DecidableEq, Repr

/-- `file_obj.read(n)` for `n ≥ 0`: up to `n` bytes from the cursor. -/
def FileObj.read (f : FileObj) (n : Nat) : List Char × FileObj :=
  let out := (f.data.drop f.pos).take n
  (out, { f with pos := f.pos + out.length })

/-- `file_obj.read(n)` for a Python int `n`: a negative size means read
to EOF (`io.BufferedIOBase.read`). -/
def FileObj.readInt (f : FileObj) (n : Int) : List Char × FileObj :=
  if n < 0 then
    let out := f.data.drop f.pos
    (out, { f with pos := f.pos + out.length })
  else f.read n.toNat

/-- `file_obj.peek(1)`: look at the next byte without advancing; empty
exactly at end of stream. -/
def FileObj.peek1 (f : FileObj) : List Char := (f.data.drop f.pos).take 1

/-- `file_obj.tell()`. -/
def FileObj.tell (f : FileObj) : Nat := f.pos

/-- `file_obj.seek(p)` with an absolute Python-int target: a negative
seek raises `ValueError`; seeking past EOF is allowed. -/
def FileObj.seek (f : FileObj) (p : Int) : Except PyErr FileObj :=
  if p < 0 then .error .valueError else .ok { f with pos := p.toNat }

/-- Modelled from the spec: `util.find_file_pattern` is imported from
`warcat.util`, whose source is not provided.  Per the spec it searches
the bytes ahead of the cursor for the pattern — bounded by `limit` bytes
when a limit is given — without moving the cursor, returns the offset of
the end of the first occurrence (`inclusive=True` adds the pattern
length), and raises `ValueError` when no occurrence is found within the
bound. -/
def findFilePattern (f : FileObj) (pat : List Char) (limit : Option Int) :
    Except PyErr Nat :=
  let window :=
    match limit with
    | some n => (f.data.drop f.pos).take n.toNat
    | none => f.data.drop f.pos
  match findSub pat window with
  | some i => .ok (i + pat.length)
  | none => .error .valueError

/-- `BinaryFileRef` after `set_source_file`: offset and length of the
referenced byte range (the filename/handle is abstracted away; the
resolved file content is supplied when iterating). -/
structure BinaryFileRef where
  file_offset : Nat
  length : Option Int
deriving DecidableEq, Repr

/-- A record's content block: a `BinaryBlock` (raw byte range) or a
`BlockWithPayload` (embedded field list plus payload range). -/
inductive ContentBlock where
  | binary (ref : BinaryFileRef)
  | withPayload (fields : BlockFields) (payload : BinaryFileRef)
deriving DecidableEq, Repr

/-- The content block's (re)computed length: for a `BinaryBlock` the
bound `length` attribute (always set by `load`); for a
`BlockWithPayload` the `length` property
`len(bytes(self.fields)) + len(NEWLINE_BYTES) + self.payload.length`. -/
def ContentBlock.length : ContentBlock → Int
  | .binary ref => ref.length.getD 0
  | .withPayload bf payload =>
    (BlockFields.str bf).length + NEWLINE.length + payload.length.getD 0

/-- `BinaryBlock.load`: bind a source-file reference to
`[tell, tell+length)` and seek past the block. -/
def BinaryBlock.load (f : FileObj) (length : Int) :
    Except PyErr (ContentBlock × FileObj) := do
  let ref : BinaryFileRef := { file_offset := f.tell, length := some length }
  let f ← f.seek ((f.tell : Int) + length)
  return (.binary ref, f)

/-- `BlockWithPayload.load`: find the field delimiter within `length`
bytes (falling back to the whole window when the search raises
`ValueError`), read and parse that many bytes as the embedded field
list, bind the payload reference to the remaining
`length - field_length` bytes, and seek past the payload. -/
def BlockWithPayload.load (f : FileObj) (length : Int)
    (variant : FieldsVariant) : Except PyErr (ContentBlock × FileObj) := do
  let field_length : Int :=
    match findFilePattern f FIELD_DELIM_BYTES (some length) with
    | .ok n => (n : Int)
    | .error _ => length
  let r := f.readInt field_length
  let fields ← parseBlockFields variant r.1
  let f := r.2
  let payload_length := length - field_length
  let payload : BinaryFileRef :=
    { file_offset := f.tell, length := some payload_length }
  let f ← f.seek ((f.tell : Int) + payload_length)
  return (.withPayload fields payload, f)

/-- Is the content-type truthy and does it start with
`"application/http"` (the first dispatch guard)? -/
def ctIsHttp : Option (List Char) → Bool
  | some s => !s.isEmpty && ("application/http".toList).isPrefixOf s
  | none => false

/-- Does the content-type equal `"application/warc-fields"` exactly
(the second dispatch guard; `None == str` is `False`)? -/
def ctIsWarcFields : Option (List Char) → Bool
  | some s => s = "application/warc-fields".toList
  | none => false

/-- `record.header.fields.get('content-type')` as used by `Record.load`
(`Fields.get` never raises, see `Fields.get`); a freshly parsed header
stores only string values. -/
def recordContentType (header : Header) : Option (List Char) :=
  match Fields.getitem header.fields ("content-type".toList) with
  | some (.str s) => some s
  | _ => none

/-- The content-block dispatch of `Record.load`: HTTP-flavored
`BlockWithPayload` when the content-type is truthy and starts with
`"application/http"`, plain `BlockWithPayload` when it equals
`"application/warc-fields"`, and a `BinaryBlock` otherwise or whenever
`preserve_block` is set. -/
def recordDispatch (preserve_block : Bool) (content_type : Option (List Char))
    (f : FileObj) (block_length : Int) :
    Except PyErr (ContentBlock × FileObj) :=
  if !preserve_block && ctIsHttp content_type then
    BlockWithPayload.load f block_length .http
  else if !preserve_block && ctIsWarcFields content_type then
    BlockWithPayload.load f block_length .plain
  else
    BinaryBlock.load f block_length

/-- A WARC record: header, content block, and file offset. -/
structure Record where
  header : Header
  content_block : ContentBlock
  file_offset : Nat
deriving DecidableEq, Repr

/-- `record.content_length` property:
`int(self.header.fields['Content-Length'])`. -/
def Record.content_length (r : Record) : Except PyErr Int :=
  pyIntOfOpt (Fields.getitem r.header.fields ("Content-Length".toList))

/-- `Record.load`: record the offset, locate and parse the header, read
the declared `Content-Length`, dispatch on `content-type` (or on
`preserve_block`) to build the content block, then reconcile: when the
block's recomputed length differs from the declared one, emit a warning
(the returned flag) and overwrite the header's `Content-Length` field
with the recomputed value. -/
def Record.load (f : FileObj) (preserve_block : Bool) :
    Except PyErr (Record × FileObj × Bool) := do
  let file_offset := f.tell
  let header_length ← findFilePattern f FIELD_DELIM_BYTES none
  let r := f.read header_length
  let header ← Header.parse r.1
  let f := r.2
  let block_length ← pyIntOfOpt
    (Fields.getitem header.fields ("Content-Length".toList))
  let content_type := recordContentType header
  let blockRes ← recordDispatch preserve_block content_type f block_length
  let content_block := blockRes.1
  let f := blockRes.2
  let new_content_length := content_block.length
  if block_length ≠ new_content_length then
    -- warning emitted; `record.content_length = new_content_length`
    let fields' := Fields.setitem header.fields ("Content-Length".toList)
      (PyVal.int new_content_length)
    return ({ header := { header with fields := fields' }
              content_block, file_offset }, f, true)
  else
    return ({ header, content_block, file_offset }, f, false)

/-- `WARC.read_record`: parse one record, then read exactly
`len(FIELD_DELIM_BYTES)` bytes and require them to equal the delimiter
(else `IOError`); the second component of the result is the has-more
flag, `False` exactly when a one-byte peek returns no data. -/
def WARC.read_record (f : FileObj) (preserve_block : Bool) :
    Except PyErr (Record × Bool × FileObj) := do
  let r ← Record.load f preserve_block
  let record := r.1
  let d := r.2.1.read FIELD_DELIM_BYTES.length
  if d.1 ≠ FIELD_DELIM_BYTES then .error .ioError
  else return (record, !d.2.peek1.isEmpty, d.2)

/-- `length = min(4096, self.length - bytes_read)` when bounded, else
`4096`: the size requested from `file_obj.read` on one loop step. -/
def chunkRequest (budget : Option Int) (bytesRead : Int) : Int :=
  match budget with
  | some l => min 4096 (l - bytesRead)
  | none => 4096

/-- `data = file_obj.read(length)` for one loop step: a negative request
reads to EOF, otherwise at most the requested number of bytes. -/
def readData (stream : List Char) (budget : Option Int) (bytesRead : Int) :
    List Char :=
  if chunkRequest budget bytesRead < 0 then stream
  else stream.take (chunkRequest budget bytesRead).toNat

/-- The chunked read loop of `BinaryFileRef.iter_bytes_over_source_file`:
each step reads `chunkRequest` bytes, accumulates `bytes_read`, and
stops (`break`) when the data is empty or the request was zero;
otherwise the data is yielded and the loop continues. -/
def readChunks (stream : List Char) (budget : Option Int) (bytesRead : Int) :
    List (List Char) :=
  if readData stream budget bytesRead = [] ∨ chunkRequest budget bytesRead = 0
  then []
  else
    readData stream budget bytesRead ::
      readChunks (stream.drop (readData stream budget bytesRead).length)
        budget (bytesRead + (readData stream budget bytesRead).length)
termination_by stream.length
decreasing_by
  have hd : readData stream budget bytesRead ≠ [] := by tauto
  have h1 : 0 < (readData stream budget bytesRead).length :=
    List.length_pos.mpr hd
  have h2 : (readData stream budget bytesRead).length ≤ stream.length := by
    unfold readData
    split
    · exact Nat.le_refl _
    · simp [List.length_take]
  simp only [List.length_drop]
  omega

/-- `BinaryFileRef.iter_bytes_over_source_file`, with the handle cache
and gzip resolution abstracted into the resolved file content
`fileData` and the handle's current position `handlePos`: the handle is
seeked to `file_offset` only when that offset is nonzero, then read in
chunks bounded by `length`. -/
def BinaryFileRef.iter_bytes_over_source_file (ref : BinaryFileRef)
    (fileData : List Char) (handlePos : Nat) : List (List Char) :=
  let start := if ref.file_offset ≠ 0 then ref.file_offset else handlePos
  readChunks (fileData.drop start) ref.length 0

/-- Does the string contain the two-character line terminator as a
contiguous substring? -/
def hasCRLF : List Char → Bool
  | [] => false
  | '\r' :: '\n' :: _ => true
  | _ :: rest => hasCRLF rest

/-- Side conditions on a field name under which serialize-then-parse can
reproduce it: no colon, no newline characters (the claim's conditions),
and — additionally — the name must not begin with a continuation
character (space or tab). -/
def goodName (n : List Char) : Prop :=
  ':' ∉ n ∧ '\r' ∉ n ∧ '\n' ∉ n ∧
    n.head? ≠ some ' ' ∧ n.head? ≠ some '\t'

instance (n : List Char) : Decidable (goodName n) := by
  unfold goodName
  infer_instance

/-- Side conditions on a field value under which serialize-then-parse
reproduces it: no embedded line terminator and no leading whitespace
(parsing left-strips the value). -/
def goodValue (v : List Char) : Prop :=
  hasCRLF v = false ∧ lstrip v = v

instance (v : List Char) : Decidable (goodValue v) := by
  unfold goodValue
  infer_instance

/-- Discriminator: is the content block a `BinaryBlock`? -/
def ContentBlock.isBinary : ContentBlock → Bool
  | .binary _ => true
  | .withPayload _ _ => false

/-- Discriminator: is the content block a `BlockWithPayload` whose
embedded field list is the HTTP-flavored variant (`HTTPHeaders`)? -/
def ContentBlock.isHttpPayload : ContentBlock → Bool
  | .withPayload (.http _ _) _ => true
  | _ => false

/-- Discriminator: is the content block a `BlockWithPayload` whose
embedded field list is a plain `Fields`? -/
def ContentBlock.isPlainPayload : ContentBlock → Bool
  | .withPayload (.plain _) _ => true
  | _ => false

/-- Sample WARC record bytes whose declared Content-Length (9)
overstates the recomputed block length (8): the embedded field line
`"k:  v"` re-serializes with a single space. -/
def mismatchFile : FileObj :=
  ⟨("WARC/1.0\r\nContent-Type: application/warc-fields\r\n" ++
    "Content-Length: 9\r\n\r\nk:  v\r\n\r\n").toList, 0⟩

/-- The header parsed from `mismatchFile` before reconciliation. -/
def mismatchHeader : Header :=
  ⟨"1.0".toList,
   [("Content-Type".toList, PyVal.str ("application/warc-fields".toList)),
    ("Content-Length".toList, PyVal.str ("9".toList))]⟩

/-- The record produced by `Record.load` on `mismatchFile`: the
Content-Length field has been overwritten with the recomputed 8. -/
def mismatchRecord : Record :=
  ⟨⟨"1.0".toList,
    [("Content-Type".toList, PyVal.str ("application/warc-fields".toList)),
     ("Content-Length".toList, PyVal.int 8)]⟩,
   .withPayload (.plain [("k".toList, "v".toList)]) ⟨79, some 0⟩, 0⟩

/-- Sample WARC record bytes with content-type
`application/warc-fields` and a block containing no field delimiter:
used to exercise the dispatch. -/
def dispatchFile : FileObj :=
  ⟨("WARC/1.0\r\nContent-Type: application/warc-fields\r\n" ++
    "Content-Length: 4\r\n\r\nk: v").toList, 0⟩

/-- The header parsed from `dispatchFile` before reconciliation. -/
def dispatchHeader : Header :=
  ⟨"1.0".toList,
   [("Content-Type".toList, PyVal.str ("application/warc-fields".toList)),
    ("Content-Length".toList, PyVal.str ("4".toList))]⟩

/-- The record produced by `Record.load` on `dispatchFile`. -/
def dispatchRecord : Record :=
  ⟨⟨"1.0".toList,
    [("Content-Type".toList, PyVal.str ("application/warc-fields".toList)),
     ("Content-Length".toList, PyVal.int 8)]⟩,
   .withPayload (.plain [("k".toList, "v".toList)]) ⟨74, some 0⟩, 0⟩

/-! ## Helper lemmas about `Fields` -/

theorem getitem_none_of_no_match {V : Type} (fs : List (List Char × V))
    (name : List Char) (h : ∀ p ∈ fs, lowerStr p.1 ≠ lowerStr name) :
    Fields.getitem fs name = none := by
  induction fs with
  | nil => rfl
  | cons p rest ih =>
    obtain ⟨k, w⟩ := p
    have hk : lowerStr k ≠ lowerStr name := h (k, w) (List.mem_cons_self _ _)
    simp only [Fields.getitem, if_neg hk]
    exact ih fun q hq => h q (List.mem_cons_of_mem _ hq)

theorem getitem_append_no_match {V : Type} (xs ys : List (List Char × V))
    (name : List Char) (h : ∀ p ∈ xs, lowerStr p.1 ≠ lowerStr name) :
    Fields.getitem (xs ++ ys) name = Fields.getitem ys name := by
  induction xs with
  | nil => rfl
  | cons p rest ih =>
    obtain ⟨k, w⟩ := p
    have hk : lowerStr k ≠ lowerStr name := h (k, w) (List.mem_cons_self _ _)
    simp only [List.cons_append, Fields.getitem, if_neg hk]
    exact ih fun q hq => h q (List.mem_cons_of_mem _ hq)

theorem index_take_no_match {V : Type} :
    ∀ (fs : List (List Char × V)) (name : List Char) (i : Nat),
      Fields.index fs name = .ok i →
      ∀ p ∈ fs.take i, lowerStr p.1 ≠ lowerStr name := by
  intro fs name
  induction fs with
  | nil => intro i h; simp [Fields.index] at h
  | cons p rest ih =>
    obtain ⟨k, w⟩ := p
    intro i h
    by_cases hk : lowerStr k = lowerStr name
    · have h0 : i = 0 := by simp [Fields.index, hk] at h; omega
      subst h0
      simp
    · rcases hrest : Fields.index rest name with e | j
      · simp [Fields.index, hk, hrest, Except.map] at h
      · have hi : i = j + 1 := by
          simp [Fields.index, hk, hrest, Except.map] at h
          omega
        subst hi
        intro q hq
        rcases List.mem_cons.mp (by simpa using hq) with hq1 | hq2
        · subst hq1; exact hk
        · exact ih j hrest q hq2

theorem setitem_shape {V : Type} :
    ∀ (fs : List (List Char × V)) (n1 : List Char) (v : V) (i : Nat),
      Fields.index fs n1 = .ok i →
      Fields.setitem fs n1 v =
        fs.take i ++ (n1, v) ::
          ((fs.drop i).filter fun p => ¬(lowerStr p.1 = lowerStr n1)) := by
  intro fs n1 v
  induction fs with
  | nil => intro i h; simp [Fields.index] at h
  | cons p rest ih =>
    obtain ⟨k, w⟩ := p
    intro i h
    by_cases hk : lowerStr k = lowerStr n1
    · have h0 : i = 0 := by simp [Fields.index, hk] at h; omega
      subst h0
      simp [Fields.setitem, Fields.index, hk, Fields.delitem]
    · rcases hrest : Fields.index rest n1 with e | j
      · simp [Fields.index, hk, hrest, Except.map] at h
      · have hi : i = j + 1 := by
          simp [Fields.index, hk, hrest, Except.map] at h
          omega
        subst hi
        have e1 : Fields.setitem ((k, w) :: rest) n1 v =
            (k, w) :: Fields.setitem rest n1 v := by
          simp [Fields.setitem, Fields.index, hk, hrest, Fields.delitem,
            Except.map]
        rw [e1, ih j hrest]
        simp [hk]

/-! ## Claim theorems: field-list operations -/

/-- Claim C10: for a field list with no case-insensitive match for a
name, `Fields.get(name, default)` returns `None` regardless of the
supplied default, because `Fields.__getitem__` returns `None` for an
absent name instead of raising the `KeyError` that `get` catches. -/
theorem fields_get_ignores_default {V : Type} (fs : List (List Char × V))
    (name : List Char) (h : ∀ p ∈ fs, lowerStr p.1 ≠ lowerStr name)
    (default : Option V) : Fields.get fs name default = .ok none := by
  have hget := getitem_none_of_no_match fs name h
  simp [Fields.get, Fields.getitemExc, hget]

theorem fields_get_ignores_default_witness :
    Fields.get [("A".toList, "1".toList)] ("B".toList)
      (some ("z".toList)) = .ok none ∧
    Fields.get [("A".toList, "1".toList)] ("B".toList) none = .ok none :=
  ⟨fields_get_ignores_default _ _ (by decide) _,
   fields_get_ignores_default _ _ (by decide) _⟩

/-- Claim C5 (code bug): `Fields.get_list` evaluated at the failing
input: the list `[("A", "1")]` queried for `"a"` returns the full
name/value pair `("A", "1")`, not the value `"1"` that both the claim
and the function's own docstring promise. -/
theorem get_list_returns_pairs_not_values :
    Fields.get_list [("A".toList, "1".toList)] ("a".toList) =
      [("A".toList, "1".toList)] := by decide

/-- Claim C7: setting a name that already occurs removes all
case-insensitive occurrences of it and inserts the new pair at the index
previously held by the first occurrence; afterwards a lookup under any
case variant of the name returns the value just set. -/
theorem setitem_removes_all_and_inserts_at_first {V : Type}
    (fs : List (List Char × V)) (n1 n2 : List Char) (v : V) (i : Nat)
    (hidx : Fields.index fs n1 = .ok i)
    (hcase : lowerStr n2 = lowerStr n1) :
    Fields.setitem fs n1 v =
      fs.take i ++ (n1, v) ::
        ((fs.drop i).filter fun p => ¬(lowerStr p.1 = lowerStr n1))
    ∧ Fields.getitem (Fields.setitem fs n1 v) n2 = some v := by
  have hshape := setitem_shape fs n1 v i hidx
  refine ⟨hshape, ?_⟩
  have hnm : ∀ p ∈ fs.take i, lowerStr p.1 ≠ lowerStr n2 := by
    intro p hp
    rw [hcase]
    exact index_take_no_match fs n1 i hidx p hp
  rw [hshape, getitem_append_no_match _ _ _ hnm]
  simp only [Fields.getitem]
  rw [if_pos hcase.symm]

theorem setitem_removes_all_and_inserts_at_first_witness :
    Fields.setitem
        [("X".toList, "0".toList), ("Foo".toList, "1".toList),
         ("fOO".toList, "2".toList), ("Y".toList, "3".toList)]
        ("FOO".toList) ("9".toList) =
      [("X".toList, "0".toList), ("FOO".toList, "9".toList),
       ("Y".toList, "3".toList)] ∧
    Fields.getitem
        (Fields.setitem
          [("X".toList, "0".toList), ("Foo".toList, "1".toList),
           ("fOO".toList, "2".toList), ("Y".toList, "3".toList)]
          ("FOO".toList) ("9".toList)) ("foo".toList) =
      some ("9".toList) := by
  have h := setitem_removes_all_and_inserts_at_first
    [("X".toList, "0".toList), ("Foo".toList, "1".toList),
     ("fOO".toList, "2".toList), ("Y".toList, "3".toList)]
    ("FOO".toList) ("foo".toList) ("9".toList) 1 (by decide) (by decide)
  refine ⟨?_, h.2⟩
  rw [h.1]
  decide

/-! ## Claim C8: bounded byte iteration -/

theorem readChunks_sum_le :
    ∀ (n : Nat) (stream : List Char), stream.length ≤ n →
      ∀ (l bytesRead : Int), 0 ≤ bytesRead → bytesRead ≤ l →
      (((readChunks stream (some l) bytesRead).map List.length).sum : Int) ≤
        l - bytesRead := by
  intro n
  induction n with
  | zero =>
    intro stream hlen l r h0 hle
    have hs : stream = [] := List.length_eq_zero.mp (Nat.le_zero.mp hlen)
    subst hs
    rw [readChunks.eq_def]
    have hrd : readData [] (some l) r = [] := by
      unfold readData
      split <;> simp
    simp [hrd]
    omega
  | succ n ih =>
    intro stream hlen l r h0 hle
    rw [readChunks.eq_def]
    split
    · simp
      omega
    · rename_i hcond
      push_neg at hcond
      obtain ⟨hdata, hlen0⟩ := hcond
      have hreq_le : chunkRequest (some l) r ≤ l - r := min_le_right _ _
      have hreq_nonneg : 0 ≤ chunkRequest (some l) r :=
        le_min (by norm_num) (by omega)
      have hdlen : ((readData stream (some l) r).length : Int) ≤
          chunkRequest (some l) r := by
        unfold readData
        split
        · omega
        · have h1 : (stream.take (chunkRequest (some l) r).toNat).length ≤
              (chunkRequest (some l) r).toNat := by
            simp [List.length_take]
          omega
      have hpos : 0 < (readData stream (some l) r).length :=
        List.length_pos.mpr hdata
      have hstream : (readData stream (some l) r).length ≤ stream.length := by
        unfold readData
        split
        · exact Nat.le_refl _
        · simp [List.length_take]
      have hlen2 : (stream.drop (readData stream (some l) r).length).length ≤
          n := by
        simp only [List.length_drop]
        omega
      have IH := ih (stream.drop (readData stream (some l) r).length) hlen2 l
        (r + (readData stream (some l) r).length) (by omega) (by omega)
      simp only [List.map_cons, List.sum_cons]
      push_cast
      push_cast at IH
      omega

/-- Claim C8: for a byte-range reference with a non-`None` (hence, per
the data model, non-negative) length `l`, the total number of bytes
yielded by `iter_bytes_over_source_file` is at most `l`, however much
more data the underlying file holds. -/
theorem iter_bytes_over_source_file_bounded (ref : BinaryFileRef) (l : Int)
    (href : ref.length = some l) (hl : 0 ≤ l) (fileData : List Char)
    (handlePos : Nat) :
    (((ref.iter_bytes_over_source_file fileData handlePos).map
        List.length).sum : Int) ≤ l := by
  unfold BinaryFileRef.iter_bytes_over_source_file
  rw [href]
  have h := readChunks_sum_le
    (fileData.drop (if ref.file_offset ≠ 0 then ref.file_offset else handlePos)).length
    (fileData.drop (if ref.file_offset ≠ 0 then ref.file_offset else handlePos))
    (le_refl _) l 0 (le_refl 0) hl
  simpa using h

theorem iter_bytes_over_source_file_bounded_witness :
    ((((BinaryFileRef.mk 0 (some 5)).iter_bytes_over_source_file
        ("hello world".toList) 0).map List.length).sum : Int) ≤ 5 :=
  iter_bytes_over_source_file_bounded _ 5 rfl (by norm_num) _ _

/-! ## Claim C4: Header.parse version-line validation -/

/-- Claim C4 counterexample: the first line `"WARCO"` does not begin with
`"WARC"` followed by `"/"`, yet `Header.parse` does not raise — it checks
only the four-character prefix `"WARC"` and slices the version as
`version_line[5:]`. -/
theorem header_parse_accepts_warc_without_slash :
    ("WARC/".toList).isPrefixOf ("WARCO".toList) = false ∧
    Header.parse ("WARCO\r\n".toList) =
      .ok { version := [], fields := [] } := by
  constructor
  · decide
  · decide

/-- Claim C4 (amended): `Header.parse` raises exactly when the input has
no line terminator, or the first line does not start with the
four-character token `"WARC"` (a following `"/"` is not required), or the
remaining text fails field parsing; on success the version is the first
line minus its first five characters. -/
theorem header_parse_spec (b : List Char) :
    ((∃ e, Header.parse b = .error e) ↔
      (splitOnceCRLF b = none ∨
        ∃ vl rest, splitOnceCRLF b = some (vl, rest) ∧
          (("WARC".toList).isPrefixOf vl = false ∨
            ∃ e, Fields.parse rest = .error e)))
    ∧ (∀ vl rest fs, splitOnceCRLF b = some (vl, rest) →
        ("WARC".toList).isPrefixOf vl = true → Fields.parse rest = .ok fs →
        Header.parse b =
          .ok ⟨vl.drop 5, fs.map fun p => (p.1, PyVal.str p.2)⟩) := by
  rcases h1 : splitOnceCRLF b with _ | ⟨vl, rest⟩
  · refine ⟨⟨fun _ => Or.inl rfl, fun _ => ⟨.valueError, ?_⟩⟩, ?_⟩
    · simp [Header.parse, h1]
    · intro vl rest fs h1' _ _
      cases h1'
  · by_cases h2 : ("WARC".toList).isPrefixOf vl = true
    · have h2p : ['W', 'A', 'R', 'C'] <+: vl := by
        simpa using h2
      rcases h3 : Fields.parse rest with e | fs
      · have hp : Header.parse b = .error e := by
          simp [Header.parse, h1, h2p, h3, Except.map]
        refine ⟨⟨fun _ => Or.inr ⟨vl, rest, rfl, Or.inr ⟨e, h3⟩⟩,
          fun _ => ⟨e, hp⟩⟩, ?_⟩
        intro vl' rest' fs' h1' _ h3'
        injection h1' with hpair
        injection hpair with hvl hrest
        subst hvl
        subst hrest
        rw [h3] at h3'
        cases h3'
      · have hp : Header.parse b =
            .ok ⟨vl.drop 5, fs.map fun p => (p.1, PyVal.str p.2)⟩ := by
          simp [Header.parse, h1, h2p, h3, Except.map]
        refine ⟨⟨?_, ?_⟩, ?_⟩
        · rintro ⟨e, he⟩
          rw [hp] at he
          cases he
        · rintro (hnone | ⟨vl', rest', h1', hbad⟩)
          · cases hnone
          · injection h1' with hpair
            injection hpair with hvl hrest
            subst hvl
            subst hrest
            rcases hbad with hpre | ⟨e, he⟩
            · rw [h2] at hpre
              cases hpre
            · rw [h3] at he
              cases he
        · intro vl' rest' fs' h1' _ h3'
          injection h1' with hpair
          injection hpair with hvl hrest
          subst hvl
          subst hrest
          rw [h3] at h3'
          injection h3' with hfs
          subst hfs
          exact hp
    · have h2p : ¬(['W', 'A', 'R', 'C'] <+: vl) := by
        simpa using h2
      have hp : Header.parse b = .error .ioError := by
        simp [Header.parse, h1, h2p]
      have h2f : ("WARC".toList).isPrefixOf vl = false := by
        rwa [Bool.not_eq_true] at h2
      refine ⟨⟨fun _ => Or.inr ⟨vl, rest, rfl, Or.inl h2f⟩,
        fun _ => ⟨.ioError, hp⟩⟩, ?_⟩
      intro vl' rest' fs' h1' hpre _
      injection h1' with hpair
      injection hpair with hvl hrest
      subst hvl
      subst hrest
      rw [hpre] at h2
      exact absurd rfl h2

theorem header_parse_spec_witness :
    Header.parse ("WARC/1.0\r\nA: b\r\n".toList) =
      .ok ⟨("WARC/1.0".toList).drop 5,
        [("A".toList, "b".toList)].map fun p => (p.1, PyVal.str p.2)⟩ :=
  (header_parse_spec _).2 ("WARC/1.0".toList) ("A: b\r\n".toList)
    [("A".toList, "b".toList)] (by decide) (by decide) (by decide)

/-! ## Claim C6: Fields serialize/parse round trip -/

theorem splitCRLF_cons_ne (c : Char) (rest : List Char)
    (h : ¬(c = '\r' ∧ rest.head? = some '\n')) :
    splitCRLF (c :: rest) = consFirst c (splitCRLF rest) := by
  rw [splitCRLF.eq_def]
  split
  · rename_i heq
    cases heq
  · rename_i rest' heq
    injection heq with h1 h2
    subst h1
    subst h2
    simp at h
  · rename_i c' rest' hno heq
    injection heq with h1 h2
    subst h1
    subst h2
    rfl

theorem hasCRLF_cons_ne (c : Char) (rest : List Char)
    (h : ¬(c = '\r' ∧ rest.head? = some '\n')) :
    hasCRLF (c :: rest) = hasCRLF rest := by
  rw [hasCRLF.eq_def]
  split
  · rename_i heq
    cases heq
  · rename_i rest' heq
    injection heq with h1 h2
    subst h1
    subst h2
    simp at h
  · rename_i c' rest' hno heq
    injection heq with h1 h2
    subst h1
    subst h2
    rfl

theorem hasCRLF_cons_split (c : Char) (a : List Char)
    (h : hasCRLF (c :: a) = false) :
    ¬(c = '\r' ∧ a.head? = some '\n') ∧ hasCRLF a = false := by
  by_cases hc : c = '\r' ∧ a.head? = some '\n'
  · obtain ⟨rfl, hhd⟩ := hc
    rcases a with _ | ⟨d, a'⟩
    · cases hhd
    · injection hhd with hd
      subst hd
      simp [hasCRLF] at h
  · exact ⟨hc, by rwa [hasCRLF_cons_ne c a hc] at h⟩

theorem splitCRLF_append_line (a b : List Char) (h : hasCRLF a = false) :
    splitCRLF (a ++ '\r' :: '\n' :: b) = a :: splitCRLF b := by
  induction a with
  | nil => rfl
  | cons c a' ih =>
    obtain ⟨hh1, hh2⟩ := hasCRLF_cons_split c a' h
    have hne : ¬(c = '\r' ∧ (a' ++ '\r' :: '\n' :: b).head? = some '\n') := by
      rintro ⟨rfl, hhd⟩
      rcases a' with _ | ⟨d, a''⟩
      · simp at hhd
      · exact hh1 ⟨rfl, by simpa using hhd⟩
    rw [List.cons_append, splitCRLF_cons_ne c _ hne, ih hh2]
    rfl

theorem hasCRLF_line (n v : List Char) (hn : '\r' ∉ n)
    (hv : hasCRLF v = false) : hasCRLF (n ++ ':' :: ' ' :: v) = false := by
  induction n with
  | nil =>
    have h1 : ¬((':' : Char) = '\r' ∧ (' ' :: v).head? = some '\n') := by
      rintro ⟨hc, _⟩
      cases hc
    have h2 : ¬((' ' : Char) = '\r' ∧ v.head? = some '\n') := by
      rintro ⟨hc, _⟩
      cases hc
    simp only [List.nil_append, hasCRLF_cons_ne _ _ h1,
      hasCRLF_cons_ne _ _ h2, hv]
  | cons c n' ih =>
    have hc : c ≠ '\r' := fun hc => hn (hc ▸ List.mem_cons_self c n')
    have hne : ¬(c = '\r' ∧ ((n' ++ ':' :: ' ' :: v)).head? = some '\n') := by
      rintro ⟨rfl, _⟩
      exact hc rfl
    rw [List.cons_append, hasCRLF_cons_ne c _ hne]
    exact ih fun hm => hn (List.mem_cons_of_mem c hm)

theorem splitFirstColon_append (n v : List Char) (hn : ':' ∉ n) :
    splitFirstColon (n ++ ':' :: v) = some (n, v) := by
  induction n with
  | nil => simp [splitFirstColon]
  | cons c n' ih =>
    have hc : c ≠ ':' := fun hc => hn (hc ▸ List.mem_cons_self c n')
    rw [List.cons_append]
    simp only [splitFirstColon, if_neg hc]
    rw [ih fun hm => hn (List.mem_cons_of_mem c hm)]
    rfl

theorem lstrip_space (v : List Char) (h : lstrip v = v) :
    lstrip (' ' :: v) = v := by
  simp only [lstrip, isPySpace]
  norm_num
  exact h

theorem join_multilines_blank (value : List Char) (rest : List (List Char)) :
    Fields.join_multilines value ([] :: rest) = (value, rest) := rfl

theorem join_multilines_noncont (value line : List Char)
    (rest : List (List Char)) (h1 : line ≠ [])
    (h2 : line.head? ≠ some ' ') (h3 : line.head? ≠ some '\t') :
    Fields.join_multilines value (line :: rest) = (value, line :: rest) := by
  rcases line with _ | ⟨c, t⟩
  · exact absurd rfl h1
  · have hc : ¬(c = ' ' ∨ c = '\t') := by
      rintro (rfl | rfl)
      · exact h2 rfl
      · exact h3 rfl
    simp [Fields.join_multilines, hc]

theorem fields_str_cons (n v : List Char)
    (ps : List (List Char × List Char)) :
    Fields.str ((n, v) :: ps) =
      (n ++ ':' :: ' ' :: v) ++ '\r' :: '\n' :: Fields.str ps := by
  simp [Fields.str, Fields.iter_str, NEWLINE]

theorem serialized_line_ne_nil (n v : List Char) :
    n ++ ':' :: ' ' :: v ≠ [] := by
  rcases n with _ | _ <;> simp

theorem serialized_line_head (n v : List Char) (hgood : goodName n) :
    (n ++ ':' :: ' ' :: v).head? ≠ some ' ' ∧
    (n ++ ':' :: ' ' :: v).head? ≠ some '\t' := by
  rcases n with _ | ⟨c, n'⟩
  · constructor <;> · intro h; cases h
  · obtain ⟨_, _, _, h4, h5⟩ := hgood
    have h4x : c ≠ ' ' := fun hc => h4 (by simp [hc])
    have h5x : c ≠ '\t' := fun hc => h5 (by simp [hc])
    constructor
    · simpa using h4x
    · simpa using h5x

theorem parseLines_round_trip :
    ∀ (ps : List (List Char × List Char)),
      (∀ p ∈ ps, goodName p.1 ∧ goodValue p.2) →
      ∀ fuel, (splitCRLF (Fields.str ps)).length ≤ fuel →
      Fields.parseLines fuel (splitCRLF (Fields.str ps)) = .ok ps := by
  intro ps
  induction ps with
  | nil =>
    intro _ fuel hfuel
    have hstr : Fields.str ([] : List (List Char × List Char)) = [] := rfl
    rw [hstr] at hfuel ⊢
    rcases fuel with _ | f
    · simp [splitCRLF] at hfuel
    · have hs : splitCRLF ([] : List Char) = [[]] := rfl
      rw [hs]
      simp only [Fields.parseLines, if_pos rfl]
      rcases f with _ | f2 <;> rfl
  | cons p ps' ih =>
    obtain ⟨n, v⟩ := p
    intro hgood fuel hfuel
    have hg : goodName n ∧ goodValue v := hgood (n, v) (List.mem_cons_self _ _)
    have hg' : ∀ q ∈ ps', goodName q.1 ∧ goodValue q.2 :=
      fun q hq => hgood q (List.mem_cons_of_mem _ hq)
    have hnoCRLF : hasCRLF (n ++ ':' :: ' ' :: v) = false :=
      hasCRLF_line n v hg.1.2.1 hg.2.1
    have hsplit : splitCRLF (Fields.str ((n, v) :: ps')) =
        (n ++ ':' :: ' ' :: v) :: splitCRLF (Fields.str ps') := by
      rw [fields_str_cons, splitCRLF_append_line _ _ hnoCRLF]
    rw [hsplit] at hfuel ⊢
    rcases fuel with _ | f
    · simp at hfuel
    · have hfuel' : (splitCRLF (Fields.str ps')).length ≤ f := by
        simpa using hfuel
      have hcolon : splitFirstColon (n ++ ':' :: ' ' :: v) =
          some (n, ' ' :: v) := splitFirstColon_append n (' ' :: v) hg.1.1
      have hstrip : lstrip (' ' :: v) = v := lstrip_space v hg.2.2
      have hjoin : Fields.join_multilines v (splitCRLF (Fields.str ps')) =
          (v, splitCRLF (Fields.str ps')) ∨
          (ps' = [] ∧
            Fields.join_multilines v (splitCRLF (Fields.str ps')) =
              (v, [])) := by
        rcases ps' with _ | ⟨⟨n2, v2⟩, ps''⟩
        · right
          exact ⟨rfl, rfl⟩
        · left
          have hnoCRLF2 : hasCRLF (n2 ++ ':' :: ' ' :: v2) = false := by
            have hg2 := hg' (n2, v2) (List.mem_cons_self _ _)
            exact hasCRLF_line n2 v2 hg2.1.2.1 hg2.2.1
          have hsplit2 : splitCRLF (Fields.str ((n2, v2) :: ps'')) =
              (n2 ++ ':' :: ' ' :: v2) :: splitCRLF (Fields.str ps'') := by
            rw [fields_str_cons, splitCRLF_append_line _ _ hnoCRLF2]
          rw [hsplit2]
          have hg2 := hg' (n2, v2) (List.mem_cons_self _ _)
          have hhd := serialized_line_head n2 v2 hg2.1
          exact join_multilines_noncont v _ _
            (serialized_line_ne_nil n2 v2) hhd.1 hhd.2
      have hline_ne : ¬(n ++ ':' :: ' ' :: v = []) := serialized_line_ne_nil n v
      rcases hjoin with hj | ⟨hps, hj⟩
      · simp only [Fields.parseLines, if_neg hline_ne, hcolon, hstrip, hj]
        rw [ih hg' f hfuel']
        rfl
      · subst hps
        simp only [Fields.parseLines, if_neg hline_ne, hcolon, hstrip, hj]
        rcases f with _ | f' <;> rfl

/-- Claim C6 counterexample: the pair list `[("A", " b")]` satisfies the
claim's conditions (its name has no colon and no newline), yet parsing
the serialization strips the value's leading space, so the round trip
does not reproduce the pairs. -/
theorem fields_round_trip_fails_on_leading_space :
    (':' ∉ ("A".toList) ∧ '\r' ∉ ("A".toList) ∧ '\n' ∉ ("A".toList)) ∧
    Fields.parse (Fields.str [("A".toList, " b".toList)]) ≠
      .ok [("A".toList, " b".toList)] := by
  constructor
  · decide
  · decide

/-- Claim C6 (amended): for a pair list whose names contain no colon and
no newline characters and do not begin with a continuation character
(space/tab), and whose values contain no line terminator and no leading
whitespace, parsing the serialization reproduces exactly the same pairs
in the same order. -/
theorem fields_parse_str_round_trip (ps : List (List Char × List Char))
    (h : ∀ p ∈ ps, goodName p.1 ∧ goodValue p.2) :
    Fields.parse (Fields.str ps) = .ok ps :=
  parseLines_round_trip ps h _ (le_refl _)

theorem fields_parse_str_round_trip_witness :
    Fields.parse (Fields.str
      [("A".toList, "b".toList), ("A".toList, "c d".toList),
       ("x-Y".toList, "".toList)]) =
      .ok [("A".toList, "b".toList), ("A".toList, "c d".toList),
           ("x-Y".toList, "".toList)] :=
  fields_parse_str_round_trip _ (by decide)

/-! ## Helper lemmas for the record-level theorems -/

theorem bind_ok {ε α β : Type} (a : α) (k : α → Except ε β) :
    (Except.ok a >>= k) = k a := rfl

theorem bind_eq_ok {ε α β : Type} {m : Except ε α} {k : α → Except ε β}
    {b : β} : (m >>= k) = .ok b ↔ ∃ a, m = .ok a ∧ k a = .ok b := by
  cases m with
  | error e =>
    constructor
    · intro h
      cases h
    · rintro ⟨a, ha, _⟩
      cases ha
  | ok a =>
    constructor
    · intro h
      exact ⟨a, rfl, h⟩
    · rintro ⟨a', ha, hk⟩
      injection ha with ha'
      subst ha'
      exact hk

theorem getitem_some_index {V : Type} :
    ∀ (fs : List (List Char × V)) (name : List Char) (v : V),
      Fields.getitem fs name = some v →
      ∃ i, Fields.index fs name = .ok i := by
  intro fs name
  induction fs with
  | nil => intro v h; cases h
  | cons p rest ih =>
    obtain ⟨k, w⟩ := p
    intro v h
    by_cases hk : lowerStr k = lowerStr name
    · exact ⟨0, by simp [Fields.index, hk]⟩
    · simp only [Fields.getitem, if_neg hk] at h
      obtain ⟨j, hj⟩ := ih v h
      exact ⟨j + 1, by simp [Fields.index, hk, hj, Except.map]⟩

theorem getitem_setitem_self {V : Type} (fs : List (List Char × V))
    (name : List Char) (v : V) (i : Nat)
    (hidx : Fields.index fs name = .ok i) :
    Fields.getitem (Fields.setitem fs name v) name = some v := by
  rw [setitem_shape fs name v i hidx,
    getitem_append_no_match _ _ _ (index_take_no_match fs name i hidx)]
  simp [Fields.getitem]

theorem record_load_eq (f : FileObj) (pb : Bool) (hl : Nat)
    (hdr : Header) (L : Int) (cb : ContentBlock) (f3 : FileObj)
    (hfind : findFilePattern f FIELD_DELIM_BYTES none = .ok hl)
    (hhdr : Header.parse (f.read hl).1 = .ok hdr)
    (hL : pyIntOfOpt (Fields.getitem hdr.fields ("Content-Length".toList)) =
      .ok L)
    (hblock : recordDispatch pb (recordContentType hdr) (f.read hl).2 L =
      .ok (cb, f3)) :
    Record.load f pb =
      if L ≠ cb.length then
        .ok (⟨⟨hdr.version, Fields.setitem hdr.fields ("Content-Length".toList)
              (PyVal.int cb.length)⟩, cb, f.pos⟩, f3, true)
      else
        .ok (⟨hdr, cb, f.pos⟩, f3, false) := by
  unfold Record.load
  simp only [hfind, hhdr, hL, hblock, bind_ok]
  rfl

theorem record_load_error (f : FileObj) (pb : Bool) (hl : Nat)
    (hdr : Header) (L : Int) (e : PyErr)
    (hfind : findFilePattern f FIELD_DELIM_BYTES none = .ok hl)
    (hhdr : Header.parse (f.read hl).1 = .ok hdr)
    (hL : pyIntOfOpt (Fields.getitem hdr.fields ("Content-Length".toList)) =
      .ok L)
    (hblock : recordDispatch pb (recordContentType hdr) (f.read hl).2 L =
      .error e) :
    Record.load f pb = .error e := by
  unfold Record.load
  simp only [hfind, hhdr, hL, hblock, bind_ok]
  rfl

theorem parseBlockFields_http_shape (s : List Char) (bf : BlockFields)
    (h : parseBlockFields .http s = .ok bf) :
    ∃ st fs, bf = .http st fs := by
  simp only [parseBlockFields] at h
  split at h
  · cases h
  · rename_i status rest heq
    rcases hfp : Fields.parse rest with e | fs <;> rw [hfp] at h
    · simp [Except.map] at h
    · simp only [Except.map] at h
      injection h with h'
      exact ⟨status, fs, h'.symm⟩

theorem parseBlockFields_plain_shape (s : List Char) (bf : BlockFields)
    (h : parseBlockFields .plain s = .ok bf) :
    ∃ fs, bf = .plain fs := by
  simp only [parseBlockFields] at h
  rcases hfp : Fields.parse s with e | fs <;> rw [hfp] at h
  · simp [Except.map] at h
  · simp only [Except.map] at h
    injection h with h'
    exact ⟨fs, h'.symm⟩

theorem blockWithPayload_load_shape (f : FileObj) (L : Int)
    (variant : FieldsVariant) (cb : ContentBlock) (f' : FileObj)
    (h : BlockWithPayload.load f L variant = .ok (cb, f')) :
    ∃ bf payload, cb = .withPayload bf payload ∧
      parseBlockFields variant
        (f.readInt (match findFilePattern f FIELD_DELIM_BYTES (some L) with
          | .ok n => (n : Int)
          | .error _ => L)).1 = .ok bf := by
  unfold BlockWithPayload.load at h
  rw [bind_eq_ok] at h
  obtain ⟨bf, hbf, h2⟩ := h
  rw [bind_eq_ok] at h2
  obtain ⟨f'', _, h3⟩ := h2
  injection h3 with h4
  injection h4 with h5 h6
  exact ⟨bf, _, h5.symm, hbf⟩

theorem binaryBlock_load_shape (f : FileObj) (L : Int) (cb : ContentBlock)
    (f' : FileObj) (h : BinaryBlock.load f L = .ok (cb, f')) :
    cb = .binary ⟨f.pos, some L⟩ := by
  unfold BinaryBlock.load at h
  rw [bind_eq_ok] at h
  obtain ⟨f'', _, h3⟩ := h
  injection h3 with h4
  injection h4 with h5 h6
  exact h5.symm

theorem isPrefixOf_ne_nil (p s : List Char) (hp : p ≠ [])
    (h : p.isPrefixOf s = true) : s ≠ [] := by
  intro hs
  subst hs
  rcases p with _ | ⟨c, t⟩
  · exact absurd rfl hp
  · simp [List.isPrefixOf] at h

/-! ## Claim C1: read_record framing -/

/-- Claim C1: positioned immediately after a successfully parsed record,
`WARC.read_record` reads exactly the four delimiter bytes and raises the
fatal framing `IOError` precisely when they differ from the doubled line
terminator; when they match it returns the record with a more-records
flag that is `False` exactly when a non-consuming one-byte peek returns
no data. -/
theorem warc_read_record_framing (f : FileObj) (pb : Bool) (rec : Record)
    (f1 : FileObj) (w : Bool)
    (hload : Record.load f pb = .ok (rec, f1, w)) :
    ((WARC.read_record f pb = .error .ioError) ↔
      (f1.data.drop f1.pos).take 4 ≠ FIELD_DELIM_BYTES)
    ∧ ((f1.data.drop f1.pos).take 4 = FIELD_DELIM_BYTES →
        WARC.read_record f pb =
          .ok (rec, !(FileObj.mk f1.data (f1.pos + 4)).peek1.isEmpty,
            FileObj.mk f1.data (f1.pos + 4))) := by
  have hlen : FIELD_DELIM_BYTES.length = 4 := rfl
  by_cases hd : (f1.data.drop f1.pos).take 4 = FIELD_DELIM_BYTES
  · have hread : f1.read FIELD_DELIM_BYTES.length =
        (FIELD_DELIM_BYTES, FileObj.mk f1.data (f1.pos + 4)) := by
      simp [FileObj.read, hlen, hd]
    have hrr : WARC.read_record f pb =
        .ok (rec, !(FileObj.mk f1.data (f1.pos + 4)).peek1.isEmpty,
          FileObj.mk f1.data (f1.pos + 4)) := by
      unfold WARC.read_record
      simp only [hload, bind_ok, hread]
      simp
      rfl
    refine ⟨⟨fun he => ?_, fun hne => absurd hd hne⟩, fun _ => hrr⟩
    rw [hrr] at he
    cases he
  · have hrr : WARC.read_record f pb = .error .ioError := by
      unfold WARC.read_record
      simp only [hload, bind_ok]
      simp [FileObj.read, hlen, hd]
    exact ⟨⟨fun _ => hd, fun _ => hrr⟩, fun hdd => absurd hdd hd⟩

theorem warc_read_record_framing_witness :
    ((WARC.read_record
        ⟨"WARC/1.0\r\nContent-Length: 0\r\n\r\n\r\n\r\n".toList, 0⟩ false =
          .error .ioError) ↔
      ((("WARC/1.0\r\nContent-Length: 0\r\n\r\n\r\n\r\n".toList).drop 31).take 4 ≠
        FIELD_DELIM_BYTES))
    ∧ ((("WARC/1.0\r\nContent-Length: 0\r\n\r\n\r\n\r\n".toList).drop 31).take 4 =
        FIELD_DELIM_BYTES →
        WARC.read_record
          ⟨"WARC/1.0\r\nContent-Length: 0\r\n\r\n\r\n\r\n".toList, 0⟩ false =
          .ok (⟨⟨"1.0".toList,
                  [("Content-Length".toList, PyVal.str "0".toList)]⟩,
                .binary ⟨31, some 0⟩, 0⟩,
            !(FileObj.mk
              ("WARC/1.0\r\nContent-Length: 0\r\n\r\n\r\n\r\n".toList)
              (31 + 4)).peek1.isEmpty,
            FileObj.mk
              ("WARC/1.0\r\nContent-Length: 0\r\n\r\n\r\n\r\n".toList)
              (31 + 4))) :=
  warc_read_record_framing
    ⟨"WARC/1.0\r\nContent-Length: 0\r\n\r\n\r\n\r\n".toList, 0⟩ false
    ⟨⟨"1.0".toList, [("Content-Length".toList, PyVal.str "0".toList)]⟩,
      .binary ⟨31, some 0⟩, 0⟩
    ⟨"WARC/1.0\r\nContent-Length: 0\r\n\r\n\r\n\r\n".toList, 31⟩ false
    (by decide)

/-! ## Claim C2: Content-Length reconciliation -/

/-- Claim C2: after a successful `Record.load`, the header's
`Content-Length` (read through the `content_length` getter) equals the
content block's recomputed length; the warning flag is set exactly when
the declared length `L` differs from the recomputed one, in which case
the field is overwritten via `__setitem__` with the recomputed value,
and otherwise the parsed header is left unchanged. -/
theorem record_load_reconciles_length (f : FileObj) (pb : Bool)
    (rec : Record) (f2 : FileObj) (warned : Bool)
    (hload : Record.load f pb = .ok (rec, f2, warned))
    (hl : Nat) (hdr : Header) (L : Int)
    (hfind : findFilePattern f FIELD_DELIM_BYTES none = .ok hl)
    (hhdr : Header.parse (f.read hl).1 = .ok hdr)
    (hL : pyIntOfOpt (Fields.getitem hdr.fields ("Content-Length".toList)) =
      .ok L) :
    rec.content_length = .ok rec.content_block.length
    ∧ (warned = true ↔ L ≠ rec.content_block.length)
    ∧ (L = rec.content_block.length → rec.header = hdr)
    ∧ (L ≠ rec.content_block.length →
        rec.header.fields =
          Fields.setitem hdr.fields ("Content-Length".toList)
            (PyVal.int rec.content_block.length)) := by
  rcases hblock : recordDispatch pb (recordContentType hdr) (f.read hl).2 L
    with e | ⟨cb, f3⟩
  · rw [record_load_error f pb hl hdr L e hfind hhdr hL hblock] at hload
    cases hload
  · rw [record_load_eq f pb hl hdr L cb f3 hfind hhdr hL hblock] at hload
    by_cases hne : L = cb.length
    · rw [if_neg (fun hc => hc hne)] at hload
      injection hload with hpair
      injection hpair with hr hrest
      injection hrest with hf hw
      subst hr
      subst hf
      subst hw
      refine ⟨?_, ?_, ?_, ?_⟩
      · simp only [Record.content_length]
        rw [← hne]
        exact hL
      · simp [hne]
      · intro _
        rfl
      · intro hcontra
        exact absurd hne hcontra
    · rw [if_pos hne] at hload
      injection hload with hpair
      injection hpair with hr hrest
      injection hrest with hf hw
      subst hr
      subst hf
      subst hw
      have hgv : ∃ v0,
          Fields.getitem hdr.fields ("Content-Length".toList) = some v0 := by
        rcases hg : Fields.getitem hdr.fields ("Content-Length".toList)
          with _ | v0
        · rw [hg] at hL
          cases hL
        · exact ⟨v0, rfl⟩
      obtain ⟨v0, hv0⟩ := hgv
      obtain ⟨i, hi⟩ := getitem_some_index hdr.fields _ v0 hv0
      have hset := getitem_setitem_self hdr.fields ("Content-Length".toList)
        (PyVal.int cb.length) i hi
      refine ⟨?_, ?_, ?_, ?_⟩
      · simp only [Record.content_length]
        rw [hset]
        rfl
      · simp [hne]
      · intro hcontra
        exact absurd hcontra hne
      · intro _
        rfl

theorem record_load_reconciles_length_witness :
    (Record.load mismatchFile false =
      .ok (mismatchRecord, ⟨mismatchFile.data, 79⟩, true)) ∧
    (mismatchRecord.content_length =
      .ok mismatchRecord.content_block.length ∧
     (true = true ↔ (9 : Int) ≠ mismatchRecord.content_block.length) ∧
     ((9 : Int) = mismatchRecord.content_block.length →
        mismatchRecord.header = mismatchHeader) ∧
     ((9 : Int) ≠ mismatchRecord.content_block.length →
        mismatchRecord.header.fields =
          Fields.setitem mismatchHeader.fields ("Content-Length".toList)
            (PyVal.int mismatchRecord.content_block.length))) :=
  ⟨by decide,
   record_load_reconciles_length mismatchFile false mismatchRecord
     ⟨mismatchFile.data, 79⟩ true (by decide) 70 mismatchHeader 9
     (by decide) (by decide) (by decide)⟩

/-! ## Claim C3: content-block dispatch -/

/-- Claim C3: for a successfully loaded record, `preserve_block` forces a
`BinaryBlock` regardless of content-type; otherwise a content-type value
starting with `"application/http"` yields a `BlockWithPayload` with the
HTTP-flavored field list, a value equal to `"application/warc-fields"`
yields one with a plain field list, and every other case — including an
absent content-type — yields a `BinaryBlock`. -/
theorem record_load_dispatch (f : FileObj) (pb : Bool)
    (rec : Record) (f2 : FileObj) (warned : Bool)
    (hload : Record.load f pb = .ok (rec, f2, warned))
    (hl : Nat) (hdr : Header) (L : Int)
    (hfind : findFilePattern f FIELD_DELIM_BYTES none = .ok hl)
    (hhdr : Header.parse (f.read hl).1 = .ok hdr)
    (hL : pyIntOfOpt (Fields.getitem hdr.fields ("Content-Length".toList)) =
      .ok L) :
    (pb = true → rec.content_block.isBinary = true)
    ∧ (pb = false → ∀ s, recordContentType hdr = some s →
        ("application/http".toList).isPrefixOf s = true →
        rec.content_block.isHttpPayload = true)
    ∧ (pb = false →
        recordContentType hdr = some ("application/warc-fields".toList) →
        rec.content_block.isPlainPayload = true)
    ∧ (pb = false →
        (∀ s, recordContentType hdr = some s →
          ("application/http".toList).isPrefixOf s = false ∧
            s ≠ "application/warc-fields".toList) →
        rec.content_block.isBinary = true) := by
  rcases hblock : recordDispatch pb (recordContentType hdr) (f.read hl).2 L
    with e | ⟨cb, f3⟩
  · rw [record_load_error f pb hl hdr L e hfind hhdr hL hblock] at hload
    cases hload
  · have hcb : rec.content_block = cb := by
      rw [record_load_eq f pb hl hdr L cb f3 hfind hhdr hL hblock] at hload
      by_cases hne : L = cb.length
      · rw [if_neg (fun hc => hc hne)] at hload
        injection hload with hpair
        injection hpair with hr hrest
        subst hr
        rfl
      · rw [if_pos hne] at hload
        injection hload with hpair
        injection hpair with hr hrest
        subst hr
        rfl
    rw [hcb]
    refine ⟨?_, ?_, ?_, ?_⟩
    · rintro rfl
      unfold recordDispatch at hblock
      simp at hblock
      rw [binaryBlock_load_shape _ _ _ _ hblock]
      rfl
    · rintro rfl s hct hpre
      have hne : s ≠ [] :=
        isPrefixOf_ne_nil _ _ (by decide) hpre
      have hhttp : ctIsHttp (recordContentType hdr) = true := by
        rw [hct]
        rcases s with _ | ⟨c, t⟩
        · exact absurd rfl hne
        · simp only [ctIsHttp, List.isEmpty_cons, Bool.not_false,
            Bool.true_and]
          exact hpre
      unfold recordDispatch at hblock
      rw [hhttp] at hblock
      simp at hblock
      obtain ⟨bf, payload, hcbe, hpf⟩ :=
        blockWithPayload_load_shape _ _ _ _ _ hblock
      obtain ⟨st, fs, hbf⟩ := parseBlockFields_http_shape _ _ hpf
      rw [hcbe, hbf]
      rfl
    · rintro rfl hct
      unfold recordDispatch at hblock
      rw [hct] at hblock
      have e1 : ctIsHttp (some ("application/warc-fields".toList)) = false := by
        decide
      have e2 : ctIsWarcFields (some ("application/warc-fields".toList)) =
          true := by decide
      rw [e1, e2] at hblock
      simp at hblock
      obtain ⟨bf, payload, hcbe, hpf⟩ :=
        blockWithPayload_load_shape _ _ _ _ _ hblock
      obtain ⟨fs, hbf⟩ := parseBlockFields_plain_shape _ _ hpf
      rw [hcbe, hbf]
      rfl
    · rintro rfl hall
      have e1 : ctIsHttp (recordContentType hdr) = false := by
        rcases hct : recordContentType hdr with _ | s
        · rfl
        · obtain ⟨hp, _⟩ := hall s hct
          rcases s with _ | ⟨c, t⟩
          · rfl
          · simp only [ctIsHttp, List.isEmpty_cons, Bool.not_false,
              Bool.true_and]
            exact hp
      have e2 : ctIsWarcFields (recordContentType hdr) = false := by
        rcases hct : recordContentType hdr with _ | s
        · rfl
        · obtain ⟨_, hw⟩ := hall s hct
          simp only [ctIsWarcFields]
          exact decide_eq_false hw
      unfold recordDispatch at hblock
      rw [e1, e2] at hblock
      simp at hblock
      rw [binaryBlock_load_shape _ _ _ _ hblock]
      rfl

theorem record_load_dispatch_witness :
    (Record.load dispatchFile false =
      .ok (dispatchRecord, ⟨dispatchFile.data, 74⟩, true)) ∧
    ((false = true → dispatchRecord.content_block.isBinary = true)
     ∧ (false = false → ∀ s, recordContentType dispatchHeader = some s →
         ("application/http".toList).isPrefixOf s = true →
         dispatchRecord.content_block.isHttpPayload = true)
     ∧ (false = false →
         recordContentType dispatchHeader =
           some ("application/warc-fields".toList) →
         dispatchRecord.content_block.isPlainPayload = true)
     ∧ (false = false →
         (∀ s, recordContentType dispatchHeader = some s →
           ("application/http".toList).isPrefixOf s = false ∧
             s ≠ "application/warc-fields".toList) →
         dispatchRecord.content_block.isBinary = true)) :=
  ⟨by decide,
   record_load_dispatch dispatchFile false dispatchRecord
     ⟨dispatchFile.data, 74⟩ true (by decide) 70 dispatchHeader 4
     (by decide) (by decide) (by decide)⟩

/-! ## Claim C9: BlockWithPayload with no delimiter in the window -/

/-- Claim C9 counterexample: a window with no field delimiter whose text
is not parseable as fields (`"x"` has no colon): `BlockWithPayload.load`
raises `ValueError` instead of returning, so the claim's "does not
raise" fails as stated. -/
theorem block_with_payload_raises_on_unparsable_window :
    findFilePattern ⟨"x".toList, 0⟩ FIELD_DELIM_BYTES (some 1) =
      .error .valueError ∧
    BlockWithPayload.load ⟨"x".toList, 0⟩ 1 .plain = .error .valueError := by
  constructor
  · decide
  · decide

/-- Claim C9 (amended): when no field delimiter occurs within the
declared length, `BlockWithPayload.load` treats the entire
declared-length window as the embedded field list and produces a
zero-length payload — and it does not raise provided the window text
parses as the chosen field-list variant (an unparsable window still
raises, see the counterexample). -/
theorem block_with_payload_no_delim (f : FileObj) (length : Int)
    (variant : FieldsVariant) (bf : BlockFields) (e0 : PyErr)
    (hfind : findFilePattern f FIELD_DELIM_BYTES (some length) = .error e0)
    (hparse : parseBlockFields variant (f.readInt length).1 = .ok bf) :
    BlockWithPayload.load f length variant =
      .ok (.withPayload bf ⟨(f.readInt length).2.pos, some 0⟩,
        (f.readInt length).2) := by
  unfold BlockWithPayload.load
  simp only [hfind, hparse, bind_ok, FileObj.tell, FileObj.seek, sub_self,
    add_zero]
  rw [if_neg (not_lt.mpr (Int.natCast_nonneg _))]
  rfl

theorem block_with_payload_no_delim_witness :
    BlockWithPayload.load ⟨"k: v".toList, 0⟩ 4 .plain =
      .ok (.withPayload (.plain [("k".toList, "v".toList)])
          ⟨((⟨"k: v".toList, 0⟩ : FileObj).readInt 4).2.pos, some 0⟩,
        ((⟨"k: v".toList, 0⟩ : FileObj).readInt 4).2) :=
  block_with_payload_no_delim ⟨"k: v".toList, 0⟩ 4 .plain
    (.plain [("k".toList, "v".toList)]) .valueError (by decide) (by decide)
